import Mathlib

/-!
Verification of the Redis client of the Tideland Go Database Clients
repository (`tideland.dev/go/db/redis`).

The development shallowly embeds the client's protocol codec (`resp.go`),
connection pool (`pool.go`), pipeline (`pipeline.go`) and connection
(`connection.go`).  Bytes are modelled as natural numbers below 256, byte
streams as lists of naturals, Go maps of sessions as finite sets of session
identifiers (a fresh identifier stands for a freshly allocated `*resp`
pointer), and fallible operations return `Except`.  A Go panic (nil
dereference, out-of-range slice) is modelled as `Option.none` or a
dedicated error constructor, kept distinct from ordinary error returns.
-/

namespace Redis

/-- Carriage-return/line-feed terminator used by the wire protocol. -/
def crlf : List Nat := [13, 10]

/-- Decimal digits of a natural number as bytes (the textual
representation produced by Go's `strconv.Itoa` / `fmt.Sprintf` for
non-negative numbers). -/
def natToBytes (n : Nat) : List Nat :=
  (Nat.toDigits 10 n).map Char.toNat

/-- Decimal representation of an integer as bytes, with a leading
minus sign (byte 45) for negative numbers. -/
def intToBytes (i : Int) : List Nat :=
  if i < 0 then 45 :: natToBytes i.natAbs else natToBytes i.toNat

/-- Bytes of a Go string (ASCII assumed, as command names and textual
numbers on the wire are ASCII). -/
def strToBytes (s : String) : List Nat :=
  s.toList.map Char.toNat

/-- Parses a run of decimal digit bytes; fails on an empty run or any
non-digit byte, mirroring `strconv.Atoi`'s digit loop. -/
def digitsToNat : List Nat → Option Nat
  | [] => none
  | [c] => if 48 ≤ c ∧ c ≤ 57 then some (c - 48) else none
  | c :: rest =>
    if 48 ≤ c ∧ c ≤ 57 then
      match digitsToNat rest with
      | some n => some ((c - 48) * 10 ^ rest.length + n)
      | none => none
    else none

/-- Model of Go's `strconv.Atoi` on a byte slice: an optional sign
followed by at least one digit, nothing else.  (Overflow of machine
integers is not modelled; the protocol lengths involved are small.) -/
def atoi : List Nat → Option Int
  | [] => none
  | c :: rest =>
    if c = 45 then (digitsToNat rest).map (fun n => -(n : Int))
    else if c = 43 then (digitsToNat rest).map (fun n => (n : Int))
    else (digitsToNat (c :: rest)).map (fun n => (n : Int))

/-- Model of `bufio.Reader.ReadBytes('\n')`: splits the stream at the
first line-feed byte (10), returning the line including the line feed
and the rest.  `none` models the end of the stream before any line
feed (a read error in Go). -/
def readLine : List Nat → Option (List Nat × List Nat)
  | [] => none
  | b :: rest =>
    if b = 10 then some ([10], rest)
    else
      match readLine rest with
      | none => none
      | some (l, r) => some (b :: l, r)

/-- The response kinds of `resp.go` (`responseKind`). -/
inductive RespKind where
  | receivingError
  | timeoutError
  | statusResponse
  | errorResponse
  | integerResponse
  | bulkResponse
  | nullBulkResponse
  | arrayResponse
deriving DecidableEq, Repr

/-- The reason recorded in a `receivingError` response's `err` field. -/
inductive RecvErr where
  /-- `ReadBytes` failed (connection broken / end of stream). -/
  | eof
  /-- `strconv.Atoi` failed on a declared length ("server responded error"). -/
  | badLength
  /-- `io.ReadFull` could not obtain the declared bulk bytes. -/
  | shortRead
  /-- unrecognized leading byte ("invalid server response"). -/
  | invalid
deriving DecidableEq, Repr

/-- One decoded response (`response` in `resp.go`): a kind, the declared
array length, the payload bytes, and the error reason when the kind is
`receivingError`. -/
structure Response where
  kind : RespKind
  length : Int
  data : List Nat
  err : Option RecvErr
deriving DecidableEq, Repr

/-- Translation of `resp.receiveResponse`.  The input is the unread
server stream; the result is the decoded response together with the
remaining stream.  `none` models a Go panic: the source computes
`content := line[1 : len(line)-2]` before inspecting the leading byte,
which panics for any line shorter than three bytes, and the bulk branch
computes `buffer[0:count]` (and `make([]byte, count+2)`), which panics
for a declared length below `-1`. -/
def receiveResponse (input : List Nat) : Option (Response × List Nat) :=
  match readLine input with
  | none => some ({ kind := .receivingError, length := 0, data := [], err := some .eof }, [])
  | some (line, rest) =>
    if line.length < 3 then none
    else
      let content := (line.drop 1).take (line.length - 3)
      match line with
      | [] => none
      | b :: _ =>
        if b = 43 then
          some ({ kind := .statusResponse, length := 0,
                  data := line.take (line.length - 2), err := none }, rest)
        else if b = 45 then
          some ({ kind := .errorResponse, length := 0,
                  data := line.take (line.length - 2), err := none }, rest)
        else if b = 58 then
          some ({ kind := .integerResponse, length := 0, data := content, err := none }, rest)
        else if b = 36 then
          match atoi content with
          | none => some ({ kind := .receivingError, length := 0, data := [],
                            err := some .badLength }, rest)
          | some n =>
            if n = -1 then
              some ({ kind := .nullBulkResponse, length := 0, data := [], err := none }, rest)
            else if n < -1 then none
            else
              let toRead := n.toNat + 2
              if rest.length < toRead then
                some ({ kind := .receivingError, length := 0, data := [],
                        err := some .shortRead }, [])
              else
                some ({ kind := .bulkResponse, length := 0,
                        data := rest.take n.toNat, err := none }, rest.drop toRead)
        else if b = 42 then
          match atoi content with
          | none => some ({ kind := .receivingError, length := 0, data := [],
                            err := some .badLength }, rest)
          | some n =>
            if n = -1 then
              some ({ kind := .timeoutError, length := 0, data := [], err := none }, rest)
            else
              some ({ kind := .arrayResponse, length := n, data := [], err := none }, rest)
        else
          some ({ kind := .receivingError, length := 0, data := [],
                  err := some .invalid }, rest)

example : atoi (strToBytes "-1") = some (-1) := by decide
example : atoi (strToBytes "42") = some 42 := by decide
example : atoi [] = none := by decide
example : readLine (strToBytes "+PONG" ++ crlf ++ [65]) =
    some (strToBytes "+PONG" ++ crlf, [65]) := by decide

example :
    receiveResponse (strToBytes "+PONG" ++ crlf) =
      some ({ kind := .statusResponse, length := 0,
              data := strToBytes "+PONG", err := none }, []) := by decide

example : receiveResponse [10] = none := by decide

example :
    receiveResponse (strToBytes "$4" ++ crlf ++ strToBytes "few" ++ crlf) =
      some ({ kind := .receivingError, length := 0, data := [],
              err := some .shortRead }, []) := by decide

example :
    receiveResponse (strToBytes "$3" ++ crlf ++ strToBytes "abc" ++ crlf ++ [65]) =
      some ({ kind := .bulkResponse, length := 0,
              data := strToBytes "abc", err := none }, [65]) := by decide

example :
    receiveResponse (strToBytes "*-1" ++ crlf) =
      some ({ kind := .timeoutError, length := 0, data := [], err := none }, []) := by decide

example :
    receiveResponse (strToBytes "$-2" ++ crlf) = none := by decide

/-! ## Connection pool (`pool.go`)

Sessions (`*resp` values) are identified by natural numbers; the `next`
field is the supply of fresh identifiers, standing for the fact that a
newly dialled `*resp` allocation is distinct from every session seen
before.  The Go maps `available` and `inUse` become finite sets.  The
`poolsize` of the owning `Database` is stored in the pool record.
Dialling the server (`newResp`) can fail; the possible outcomes are
threaded in as the boolean `dialOk`.  Where Go iterates a map in
unspecified order (`pull` taking the first available session), the model
takes the minimum identifier; the claims never depend on the choice. -/

/-- Pool state (`pool` in `pool.go`, with the owning database's
`poolsize` inlined and a fresh-identifier supply `next`). -/
structure Pool where
  active : Bool
  available : Finset Nat
  inUse : Finset Nat
  poolsize : Nat
  next : Nat

instance : DecidableEq Pool := fun p q =>
  decidable_of_iff
    (p.active = q.active ∧ p.available = q.available ∧ p.inUse = q.inUse ∧
      p.poolsize = q.poolsize ∧ p.next = q.next)
    (by cases p; cases q; simp)

/-- Errors of the pool and of the client operations built on it. -/
inductive Err where
  /-- "connection pool closed" -/
  | poolClosed
  /-- "connection pool limit (%d) reached" -/
  | poolLimit
  /-- `newResp` failed to dial the server. -/
  | dialFailed
  /-- `wait.WithTimeout` gave up after the 5 second deadline. -/
  | deadline
  /-- "use subscription type for subscriptions" -/
  | misuse
  /-- `conn.Write` failed while sending a command. -/
  | sendFailed
  /-- a `receivingError` response was decoded. -/
  | recv (e : RecvErr)
  /-- "timeout waiting for response" -/
  | recvTimeout
  /-- decoding hit a Go panic (see `receiveResponse`). -/
  | crashed
  /-- out of fuel (unreachable with the fuel chosen by callers). -/
  | fuel
  /-- `authenticate` rejected the status reply. -/
  | authFailed
  /-- `selectDatabase` rejected the status reply. -/
  | selectFailed
deriving DecidableEq, Repr

instance {ε α : Type} [DecidableEq ε] [DecidableEq α] : DecidableEq (Except ε α) := fun x y =>
  match x, y with
  | .ok a, .ok b => decidable_of_iff (a = b) (by simp)
  | .error a, .error b => decidable_of_iff (a = b) (by simp)
  | .ok _, .error _ => .isFalse (by simp)
  | .error _, .ok _ => .isFalse (by simp)

/-- `newPool`: a fresh active pool with empty session sets. -/
def newPool (size : Nat) : Pool :=
  { active := true, available := ∅, inUse := ∅, poolsize := size, next := 0 }

/-- Translation of `pool.close`: fails if already inactive, otherwise
deactivates the pool and closes (drops) every available session. -/
def Pool.close (p : Pool) : Except Err Pool :=
  if p.active = false then .error .poolClosed
  else .ok { p with active := false, available := ∅ }

/-- Translation of `pool.pullForced`: fails when the pool is closed,
otherwise dials a brand-new session and marks it in use — with no
capacity check at all. -/
def Pool.pullForced (dialOk : Bool) (p : Pool) : Except Err (Nat × Pool) :=
  if p.active = false then .error .poolClosed
  else if dialOk = false then .error .dialFailed
  else .ok (p.next, { p with inUse := insert p.next p.inUse, next := p.next + 1 })

/-- Translation of `pool.pull`: closed pool fails; else a session is
moved from available to in use when one exists; else a new session is
dialled lazily while the in-use count is below the capacity; else the
pool-limit error is returned. -/
def Pool.pull (dialOk : Bool) (p : Pool) : Except Err (Nat × Pool) :=
  if p.active = false then .error .poolClosed
  else if h : p.available.Nonempty then
    .ok (p.available.min' h,
      { p with available := p.available.erase (p.available.min' h),
               inUse := insert (p.available.min' h) p.inUse })
  else if p.inUse.card < p.poolsize then
    if dialOk = false then .error .dialFailed
    else .ok (p.next, { p with inUse := insert p.next p.inUse, next := p.next + 1 })
  else .error .poolLimit

/-- Translation of `pool.pullRetry`.  `wait.WithTimeout` polls `pull`
every few milliseconds until it yields a session or the deadline
elapses; an error from an individual `pull` makes the poll report "not
done yet" and is never surfaced.  The successive pool states observed
by the polls (which concurrent holders may have changed in between) are
supplied as the list `polls`; an exhausted list models the elapsed
deadline. -/
def Pool.pullRetry (dialOk : Bool) : List Pool → Except Err (Nat × Pool)
  | [] => .error .deadline
  | p :: rest =>
    match p.pull dialOk with
    | .ok v => .ok v
    | .error _ => Pool.pullRetry dialOk rest

/-- The polling interval handed to `wait.WithTimeout` in `pullRetry`,
in milliseconds. -/
def pullRetryIntervalMillis : Nat := 5

/-- The overall deadline handed to `wait.WithTimeout` in `pullRetry`,
in milliseconds. -/
def pullRetryTimeoutMillis : Nat := 5000

/-- Translation of `pool.push`: the session leaves the in-use set; it
is retained as available only while the pool is active and the
available set is below the capacity, and is closed (dropped) otherwise. -/
def Pool.push (r : Nat) (p : Pool) : Pool :=
  if p.active = false ∨ p.poolsize ≤ p.available.card then
    { p with inUse := p.inUse.erase r }
  else
    { p with inUse := p.inUse.erase r, available := insert r p.available }

/-- Translation of `pool.kill`: the session leaves the in-use set and
its connection is closed unconditionally. -/
def Pool.kill (r : Nat) (p : Pool) : Pool :=
  { p with inUse := p.inUse.erase r }

/-- The pool invariant of the specification: the available and in-use
sets are disjoint and together hold at most `poolsize` sessions.  The
third conjunct — every tracked session identifier is below the fresh
supply — is the freshness fact needed to preserve disjointness when a
new session is dialled. -/
def PoolInv (p : Pool) : Prop :=
  Disjoint p.available p.inUse ∧
  p.available.card + p.inUse.card ≤ p.poolsize ∧
  ∀ s ∈ p.available ∪ p.inUse, s < p.next

instance (p : Pool) : Decidable (PoolInv p) := by
  unfold PoolInv; infer_instance

example : PoolInv (newPool 10) := by decide
example :
    (newPool 1).pull true = .ok (0,
      { active := true, available := ∅, inUse := {0}, poolsize := 1, next := 1 }) := by
  decide
example :
    Pool.pull true { active := true, available := ∅, inUse := {0}, poolsize := 1, next := 1 } =
      .error .poolLimit := by decide
example :
    Pool.pullForced true { active := true, available := ∅, inUse := {0}, poolsize := 1, next := 1 } =
      .ok (1, { active := true, available := ∅, inUse := {0, 1}, poolsize := 1, next := 2 }) := by
  decide

/-- A concrete full pool of capacity one: session 0 in use, none
available. -/
def onePool : Pool :=
  { active := true, available := ∅, inUse := {0}, poolsize := 1, next := 1 }

/-! ## Command encoding (`resp.go`: `sendCommand`, `buildLengthPart`,
`buildValuePart`, `buildArgumentsPart`)

Command arguments arrive as `interface{}` values and are dispatched by
dynamic type; following the specification's design note they are
modelled as a closed set of tagged variants: a scalar (a `Value` byte
string, a Go string, or a Go int), a list-like `valuer` (its `Values()`
as a list of byte strings, its `Len()` being their number), and the
map-like `Hash` / `Hashable` (entries as string keys with `Value`
payloads, iterated in list order where Go iterates the map in
unspecified order). -/

/-- Scalar command argument variants. -/
inductive Scal where
  | value : List Nat → Scal
  | str : String → Scal
  | int : Int → Scal
deriving DecidableEq, Repr

/-- Raw bytes of a scalar: a `Value` keeps its bytes, other scalars go
through `valueToBytes` (strings to their bytes, ints to their decimal
text via `fmt.Sprintf`). -/
def Scal.bytes : Scal → List Nat
  | .value b => b
  | .str s => strToBytes s
  | .int n => intToBytes n

/-- Command argument variants (`interface{}` arguments of `sendCommand`). -/
inductive Arg where
  | scal : Scal → Arg
  | list : List (List Nat) → Arg
  | hash : List (String × List Nat) → Arg
  | hashable : List (String × List Nat) → Arg
deriving DecidableEq, Repr

/-- The units one argument contributes to the length header in
`buildLengthPart`: a `valuer` contributes `Len()`, a `Hash` or
`Hashable` contributes `Len() * 2`, anything else one unit. -/
def Arg.units : Arg → Nat
  | .scal _ => 1
  | .list l => l.length
  | .hash h => 2 * h.length
  | .hashable h => 2 * h.length

/-- Translation of `resp.buildLengthPart`: `*`, then `1` plus the units
of every argument in decimal, then the terminator. -/
def buildLengthPart (args : List Arg) : List Nat :=
  [42] ++ natToBytes (1 + (args.map Arg.units).sum) ++ crlf

/-- Translation of `resp.buildValuePart`: `$`, the byte length of the
raw value in decimal, the terminator, the raw bytes, the terminator. -/
def buildValuePart (v : Scal) : List Nat :=
  [36] ++ natToBytes v.bytes.length ++ crlf ++ v.bytes ++ crlf

/-- The per-argument dispatch of `resp.buildArgumentsPart`: a `valuer`
expands to its values framed one by one (the inner `buildValuesPart`
closure), a `Hash`/`Hashable` to each key (a string) and value (a
`Value`) framed in turn (the inner `buildHashPart` closure), and a
scalar to its own frame. -/
def argBytes : Arg → List Nat
  | .scal v => buildValuePart v
  | .list l => (l.map fun b => buildValuePart (.value b)).flatten
  | .hash h => (h.map fun kv => buildValuePart (.str kv.1) ++ buildValuePart (.value kv.2)).flatten
  | .hashable h =>
    (h.map fun kv => buildValuePart (.str kv.1) ++ buildValuePart (.value kv.2)).flatten

/-- Translation of `resp.buildArgumentsPart`: the concatenation of the
per-argument parts. -/
def buildArgumentsPart (args : List Arg) : List Nat :=
  (args.map argBytes).flatten

/-- Translation of `resp.sendCommand`'s packet construction: the length
part, the framed command name, and the framed arguments. -/
def sendCommandBytes (cmd : String) (args : List Arg) : List Nat :=
  buildLengthPart args ++ buildValuePart (.str cmd) ++ buildArgumentsPart args

/-- The raw wire elements one argument expands to: the scalar's bytes,
the values of a list-like argument, or key and value alternately for a
map-like argument. -/
def argElements : Arg → List (List Nat)
  | .scal v => [v.bytes]
  | .list l => l
  | .hash h => (h.map fun kv => [strToBytes kv.1, kv.2]).flatten
  | .hashable h => (h.map fun kv => [strToBytes kv.1, kv.2]).flatten

/-- The element sequence a command invocation expands to on the wire:
the command name first, then the elements of each argument in turn. -/
def wireElements (cmd : String) (args : List Arg) : List (List Nat) :=
  strToBytes cmd :: (args.map argElements).flatten

/-- The frame of one wire element: `$`, its byte length, the
terminator, the raw bytes, the terminator. -/
def frameElement (raw : List Nat) : List Nat :=
  [36] ++ natToBytes raw.length ++ crlf ++ raw ++ crlf

example :
    sendCommandBytes "get" [.scal (.str "foo")] =
      strToBytes "*2" ++ crlf ++ strToBytes "$3" ++ crlf ++ strToBytes "get" ++ crlf ++
        strToBytes "$3" ++ crlf ++ strToBytes "foo" ++ crlf := by decide

example :
    sendCommandBytes "hmset" [.scal (.str "h"), .hash [("k", strToBytes "v")]] =
      strToBytes "*4" ++ crlf ++
        strToBytes "$5" ++ crlf ++ strToBytes "hmset" ++ crlf ++
        strToBytes "$1" ++ crlf ++ strToBytes "h" ++ crlf ++
        strToBytes "$1" ++ crlf ++ strToBytes "k" ++ crlf ++
        strToBytes "$1" ++ crlf ++ strToBytes "v" ++ crlf := by decide

/-! ## Result containers and reply assembly (`resp.receiveResultSet`)

The repository's `ResultSet` type (its `newResultSet`, `append`, `Len`,
`allReceived`, `nextResultSet`, `ValueAt`, `StringAt`) is not among the
provided sources — only its callers are.  It is modelled from the spec:
"an ordered sequence of decoded values; may contain nested Result
containers to represent nested array replies; tracks a declared length
and how many elements have been appended, to know when a (sub)container
is complete", with the cursor behaviour of §4.1: on an array reply a
child container is created, linked to its parent, appended as a value
of the parent and becomes the cursor; when a container reaches its
declared element count the cursor ascends to the parent; decoding
terminates when the cursor ascends above the root.  A container is a
pair of its declared length (`Int`, initially zero) and its item list;
the cursor is a zipper whose stack holds the ancestors' data, children
being attached on ascent.  The assembly loop itself is translated from
`resp.receiveResultSet` in the sources. -/

/-- One item of a result container: a decoded value or a nested
container (declared length and items). -/
inductive RItem where
  | value : List Nat → RItem
  | sub : Int → List RItem → RItem

mutual

def RItem.deq : (a b : RItem) → Decidable (a = b)
  | .value a, .value b => decidable_of_iff (a = b) (by simp)
  | .value _, .sub _ _ => .isFalse (fun h => RItem.noConfusion h)
  | .sub _ _, .value _ => .isFalse (fun h => RItem.noConfusion h)
  | .sub n xs, .sub m ys =>
    haveI : Decidable (xs = ys) := RItem.deqList xs ys
    decidable_of_iff (n = m ∧ xs = ys) (by simp)

def RItem.deqList : (xs ys : List RItem) → Decidable (xs = ys)
  | [], [] => .isTrue rfl
  | [], _ :: _ => .isFalse (by simp)
  | _ :: _, [] => .isFalse (by simp)
  | x :: xs, y :: ys =>
    haveI : Decidable (x = y) := RItem.deq x y
    haveI : Decidable (xs = ys) := RItem.deqList xs ys
    decidable_of_iff (x = y ∧ xs = ys) (by simp)

end

instance : DecidableEq RItem := RItem.deq

/-- A result container under construction or finished: declared length
and appended items. -/
abbrev RSet := Int × List RItem

/-- Modelled from the spec: `allReceived` — a container is complete
when it holds at least its declared element count. -/
def allReceived (rs : RSet) : Bool :=
  rs.1 ≤ (rs.2.length : Int)

/-- Modelled from the spec: the cursor ascent of `nextResultSet` —
while the current container is complete, attach it to its parent and
continue there; `.inr` is the finished root (the cursor went above the
root), `.inl` the new stack and cursor. -/
def ascend (stack : List RSet) (cur : RSet) : (List RSet × RSet) ⊕ RSet :=
  if allReceived cur = false then .inl (stack, cur)
  else
    match stack with
    | [] => .inr cur
    | parent :: rest => ascend rest (parent.1, parent.2 ++ [RItem.sub cur.1 cur.2])

/-- Translation of the loop of `resp.receiveResultSet`, with fuel (the
loop consumes at least one input byte per iteration, so the fuel picked
by `receiveResultSet` never runs out).  Value-bearing responses are
appended to the cursor; an array response sets the root's declared
length when the root is still empty, descends into a fresh child when
the cursor is incomplete, and is dropped otherwise; failure kinds abort
with the corresponding error. -/
def receiveResultSetLoop :
    Nat → List Nat → List RSet → RSet → Except Err (RSet × List Nat)
  | 0, _, _, _ => .error .fuel
  | fuel + 1, input, stack, cur =>
    match receiveResponse input with
    | none => .error .crashed
    | some (resp, rest) =>
      match resp.kind with
      | .receivingError => .error (.recv (resp.err.getD .eof))
      | .timeoutError => .error .recvTimeout
      | .arrayResponse =>
        let state : List RSet × RSet :=
          if stack = [] ∧ cur.2 = [] then (stack, (resp.length, cur.2))
          else if allReceived cur = false then (cur :: stack, (resp.length, []))
          else (stack, cur)
        match ascend state.1 state.2 with
        | .inr root => .ok (root, rest)
        | .inl (stack', cur') => receiveResultSetLoop fuel rest stack' cur'
      | _ =>
        let cur' : RSet := (cur.1, cur.2 ++ [RItem.value resp.data])
        match ascend stack cur' with
        | .inr root => .ok (root, rest)
        | .inl (stack', cur') => receiveResultSetLoop fuel rest stack' cur'

/-- Translation of `resp.receiveResultSet`: run the assembly loop on a
fresh root container. -/
def receiveResultSet (input : List Nat) : Except Err (RSet × List Nat) :=
  receiveResultSetLoop (input.length + 1) input [] (0, [])

/-- Modelled from the spec: `ResultSet.ValueAt` — the value at an
index, when the index is in range and the item there is a plain value. -/
def valueAt (rs : RSet) (i : Nat) : Option (List Nat) :=
  match rs.2.get? i with
  | some (.value b) => some b
  | _ => none

/-- Modelled from the spec: `ResultSet.StringAt` — the value at an
index coerced to a string. -/
def stringAt (rs : RSet) (i : Nat) : Option String :=
  (valueAt rs i).map fun b => String.mk (b.map Char.ofNat)

example :
    receiveResultSet (strToBytes "+PONG" ++ crlf) =
      .ok ((0, [RItem.value (strToBytes "+PONG")]), []) := by decide

example :
    stringAt (0, [RItem.value (strToBytes "+PONG")]) 0 = some "+PONG" := by decide

example :
    receiveResultSet (strToBytes "*2" ++ crlf ++ strToBytes ":1" ++ crlf ++
        strToBytes ":2" ++ crlf) =
      .ok ((2, [RItem.value (strToBytes "1"), RItem.value (strToBytes "2")]), []) := by
  decide

example :
    receiveResultSet (strToBytes "*2" ++ crlf ++ strToBytes ":7" ++ crlf ++
        strToBytes "*1" ++ crlf ++ strToBytes ":9" ++ crlf) =
      .ok ((2, [RItem.value (strToBytes "7"),
                RItem.sub 1 [RItem.value (strToBytes "9")]]), []) := by
  decide

example :
    receiveResultSet (strToBytes "*-1" ++ crlf) = .error .recvTimeout := by decide

example :
    receiveResultSet [] = .error (.recv .eof) := by decide

/-! ## Pipeline (`pipeline.go`) and Connection (`connection.go`)

The pipeline owns a pooled session (or none), the count of commands
sent but not yet collected, and — for observing which commands travel
over which session — the list of (session, command name) pairs sent so
far.  Network effects are threaded in explicitly: `dialOk` is the
outcome of dialling inside `pullForced`, `sendOk` the outcome of the
socket write in `sendCommand`, and the server's byte stream is passed
to the operations that read replies.  The handshake of `newPipeline`
sends the authenticate command when a password is configured and the
select command always; `authOk`/`selectOk` stand for the `IsOK` check
of the received status replies (the `Value.IsOK` helper is not among
the provided sources). -/

/-- Model of Go `strings.ToLower` (character-wise). -/
def lowerStr (s : String) : String :=
  String.mk (s.toList.map Char.toLower)

/-- Whether the first list is an initial segment of the second. -/
def leadMatch : List Char → List Char → Bool
  | [], _ => true
  | _ :: _, [] => false
  | a :: as, b :: bs => a == b && leadMatch as bs

/-- Model of Go `strings.Contains`: the needle occurs contiguously in
the haystack. -/
def occursIn (needle : List Char) : List Char → Bool
  | [] => leadMatch needle []
  | b :: rest => leadMatch needle (b :: rest) || occursIn needle rest

/-- The `strings.Contains(cmd, "subscribe")` guard of `Pipeline.Do` and
`Connection.Do` (applied after lowering). -/
def hasSubscribe (cmd : String) : Bool :=
  occursIn ("subscribe".toList) cmd.toList

example : hasSubscribe (lowerStr "SUBSCRIBE") = true := by decide
example : hasSubscribe (lowerStr "psubscribe") = true := by decide
example : hasSubscribe (lowerStr "ping") = false := by decide

/-- Pipeline state (`Pipeline` in `pipeline.go`), with the owning
database's pool inlined and the send log added as an observation. -/
structure Pipeline where
  pool : Pool
  resp : Option Nat
  counter : Nat
  sent : List (Nat × String)

instance : DecidableEq Pipeline := fun p q =>
  decidable_of_iff
    (p.pool = q.pool ∧ p.resp = q.resp ∧ p.counter = q.counter ∧ p.sent = q.sent)
    (by cases p; cases q; simp)

/-- Translation of `Pipeline.ensureProtocol`: reuse the held session,
or force-pull a fresh one and reset the counter.  Returns the session
alongside the state (in Go the caller reads `ppl.resp` afterwards). -/
def Pipeline.ensureProtocol (dialOk : Bool) (st : Pipeline) : Except Err (Nat × Pipeline) :=
  match st.resp with
  | some s => .ok (s, st)
  | none =>
    match st.pool.pullForced dialOk with
    | .error e => .error e
    | .ok (s, pool') => .ok (s, { st with pool := pool', resp := some s, counter := 0 })

/-- Translation of `Pipeline.Do`: lower-case the command, reject
subscription commands, ensure a session, send the command (recorded in
the log) and count one more outstanding reply.  The state is returned
alongside the result since a failed send leaves the mutations of
`ensureProtocol` in place. -/
def Pipeline.Do (dialOk sendOk : Bool) (cmd : String) (st : Pipeline) :
    Except Err Unit × Pipeline :=
  let c := lowerStr cmd
  if hasSubscribe c then (.error .misuse, st)
  else
    match st.ensureProtocol dialOk with
    | .error e => (.error e, st)
    | .ok (s, st') =>
      if sendOk = false then (.error .sendFailed, st')
      else (.ok (), { st' with counter := st'.counter + 1, sent := st'.sent ++ [(s, c)] })

/-- The reply-reading loop of `Pipeline.Collect`: read one result set
per outstanding command, in stream order, accumulating the results in
reading order. -/
def collectN : Nat → List Nat → Except Err (List RSet × List Nat)
  | 0, stream => .ok ([], stream)
  | k + 1, stream =>
    match receiveResultSet stream with
    | .error e => .error e
    | .ok (r, rest) =>
      match collectN k rest with
      | .error e => .error e
      | .ok (rs, rest') => .ok (r :: rs, rest')

/-- Translation of `Pipeline.Collect`: ensure a session, read exactly
`counter` result sets from the session's stream, kill the session and
abort on any read failure, push it back on full success; the deferred
assignment clears the session reference on every path, and the counter
is left untouched. -/
def Pipeline.Collect (dialOk : Bool) (stream : List Nat) (st : Pipeline) :
    Except Err (List RSet × List Nat) × Pipeline :=
  match st.ensureProtocol dialOk with
  | .error e => (.error e, { st with resp := none })
  | .ok (s, st') =>
    match collectN st'.counter stream with
    | .error e => (.error e, { st' with pool := st'.pool.kill s, resp := none })
    | .ok (results, rest) =>
      (.ok (results, rest), { st' with pool := st'.pool.push s, resp := none })

/-- Translation of `newPipeline`: ensure a session, authenticate when a
password is configured (killing the session and failing when the
status reply is not accepted), then select the database likewise.
`authOk` and `selectOk` stand for the acceptance of the respective
status replies.  The pool is returned separately so the kill on a
failed handshake is observable. -/
def newPipeline (dialOk : Bool) (password : String) (authOk selectOk : Bool) (p : Pool) :
    Except Err Pipeline × Pool :=
  let st0 : Pipeline := { pool := p, resp := none, counter := 0, sent := [] }
  match st0.ensureProtocol dialOk with
  | .error e => (.error e, p)
  | .ok (s, st1) =>
    let st2 := if password = "" then st1
               else { st1 with sent := st1.sent ++ [(s, "auth")] }
    if password ≠ "" ∧ authOk = false then
      (.error .authFailed, st2.pool.kill s)
    else
      let st3 := { st2 with sent := st2.sent ++ [(s, "select")] }
      if selectOk = false then (.error .selectFailed, st3.pool.kill s)
      else (.ok st3, st3.pool)

/-- Connection state (`Connection` in `connection.go`), with the pool
inlined. -/
structure Connection where
  pool : Pool
  resp : Option Nat

instance : DecidableEq Connection := fun p q =>
  decidable_of_iff (p.pool = q.pool ∧ p.resp = q.resp) (by cases p; cases q; simp)

/-- Translation of `Connection.Return` for a connection still holding a
session: the session is pushed back into the pool and the reference
cleared.  (With the reference already cleared, the Go code would push
a nil session; that path is outside the claims and not modelled.) -/
def Connection.Return (s : Nat) (st : Connection) : Connection :=
  { pool := st.pool.push s, resp := none }

/-- Translation of `Connection.Do`: lower-case the command, reject
subscription commands, then send over the held session and decode one
result set from the reply stream.  The outer `Option` is `none` when
the Go code panics: with the session reference cleared,
`conn.resp.sendCommand` dereferences a nil `*resp`. -/
def Connection.Do (sendOk : Bool) (stream : List Nat) (cmd : String) (st : Connection) :
    Option (Except Err (RSet × List Nat)) :=
  let c := lowerStr cmd
  if hasSubscribe c then some (.error .misuse)
  else
    match st.resp with
    | none => none
    | some _ =>
      if sendOk = false then some (.error .sendFailed)
      else some (receiveResultSet stream)

/-! ## Helper lemmas -/

/-- The wire elements of a map-like argument are twice its entry count. -/
theorem hash_elements_length (h : List (String × List Nat)) :
    ((h.map fun kv => [strToBytes kv.1, kv.2]).flatten).length = 2 * h.length := by
  induction h with
  | nil => rfl
  | cons kv t ih =>
    simp only [List.map_cons, List.flatten_cons, List.length_append, List.length_cons,
      List.length_nil, ih]
    omega

/-- Framing the key/value elements of a map-like argument one by one
agrees with flattening the element pairs first and framing afterwards. -/
theorem hash_frames_eq (h : List (String × List Nat)) :
    (h.map fun kv => buildValuePart (.str kv.1) ++ buildValuePart (.value kv.2)).flatten =
      (((h.map fun kv => [strToBytes kv.1, kv.2]).flatten).map frameElement).flatten := by
  induction h with
  | nil => rfl
  | cons kv t ih =>
    simp only [List.map_cons, List.flatten_cons, List.map_append, List.flatten_append, ih]
    simp [buildValuePart, frameElement, Scal.bytes]

/-- Framing each argument's bytes agrees with expanding to raw wire
elements first and framing element-wise afterwards. -/
theorem argBytes_eq (a : Arg) :
    argBytes a = ((argElements a).map frameElement).flatten := by
  cases a with
  | scal v => simp [argBytes, argElements, buildValuePart, frameElement]
  | list l =>
    simp only [argBytes, argElements]
    congr 1
  | hash h => exact (hash_frames_eq h).trans (by rfl)
  | hashable h => exact (hash_frames_eq h).trans (by rfl)

/-- `buildArgumentsPart` frames exactly the expanded argument elements. -/
theorem buildArgumentsPart_eq (args : List Arg) :
    buildArgumentsPart args = (((args.map argElements).flatten).map frameElement).flatten := by
  induction args with
  | nil => rfl
  | cons a t ih =>
    simp only [buildArgumentsPart, List.map_cons, List.flatten_cons, List.map_append,
      List.flatten_append] at *
    rw [argBytes_eq, ih]

/-- C4: Every encoded command starts with an array length header equal
to one (for the command name) plus one unit per scalar argument, the
contained-value count for a list-like argument, and twice the entry
count for a map-like argument; and the remainder of the message is the
expansion's elements each framed as `$`, the element's byte length, the
terminator, the raw bytes, and the terminator, scalar arguments having
been converted to their textual representation (`Scal.bytes`) before
framing. -/
theorem sendCommand_framing (cmd : String) (args : List Arg) :
    sendCommandBytes cmd args =
      [42] ++ natToBytes (wireElements cmd args).length ++ crlf ++
        ((wireElements cmd args).map frameElement).flatten ∧
    (wireElements cmd args).length = 1 + (args.map Arg.units).sum := by
  have harg : ∀ a : Arg, (argElements a).length = a.units := by
    intro a
    cases a with
    | scal v => rfl
    | list l => rfl
    | hash h => exact hash_elements_length h
    | hashable h => exact hash_elements_length h
  have hlen : (wireElements cmd args).length = 1 + (args.map Arg.units).sum := by
    simp only [wireElements, List.length_cons, List.length_flatten, List.map_map]
    have : (args.map (List.length ∘ argElements)) = args.map Arg.units := by
      apply List.map_congr_left
      intro a _
      exact harg a
    rw [this]
    omega
  refine ⟨?_, hlen⟩
  rw [hlen]
  show buildLengthPart args ++ buildValuePart (.str cmd) ++ buildArgumentsPart args = _
  rw [buildArgumentsPart_eq]
  simp [buildLengthPart, wireElements, buildValuePart, frameElement, Scal.bytes,
    List.append_assoc]

/-- C5: `pull` on an inactive pool fails with the pool-closed error;
otherwise, with a session available, the smallest-identified available
session is moved to the in-use set and returned; otherwise, with the
in-use count strictly below the capacity and the dial succeeding, a
brand-new session (one never seen before, with no handshake performed —
`pull` sends nothing) is created, marked in use and returned; otherwise
the pool-limit error is returned. -/
theorem pool_pull_cases (p : Pool) (dialOk : Bool) (hInv : PoolInv p) :
    (p.active = false → p.pull dialOk = .error .poolClosed) ∧
    (p.active = true → ∀ h : p.available.Nonempty,
      p.available.min' h ∈ p.available ∧
      p.pull dialOk = .ok (p.available.min' h,
        { p with available := p.available.erase (p.available.min' h),
                 inUse := insert (p.available.min' h) p.inUse })) ∧
    (p.active = true → p.available = ∅ → p.inUse.card < p.poolsize → dialOk = true →
      p.pull dialOk = .ok (p.next,
        { p with inUse := insert p.next p.inUse, next := p.next + 1 }) ∧
      p.next ∉ p.available ∧ p.next ∉ p.inUse) ∧
    (p.active = true → p.available = ∅ → ¬ p.inUse.card < p.poolsize →
      p.pull dialOk = .error .poolLimit) := by
  refine ⟨?_, ?_, ?_, ?_⟩
  · intro ha
    simp [Pool.pull, ha]
  · intro ha h
    refine ⟨p.available.min'_mem h, ?_⟩
    simp [Pool.pull, ha, dif_pos h]
  · intro ha hav hcard hdial
    have hne : ¬ p.available.Nonempty := by
      rw [hav]
      exact Finset.not_nonempty_empty
    refine ⟨by simp [Pool.pull, ha, dif_neg hne, hcard, hdial], ?_, ?_⟩
    · intro hmem
      exact absurd (hInv.2.2 p.next (Finset.mem_union_left _ hmem)) (lt_irrefl _)
    · intro hmem
      exact absurd (hInv.2.2 p.next (Finset.mem_union_right _ hmem)) (lt_irrefl _)
  · intro ha hav hcard
    have hne : ¬ p.available.Nonempty := by
      rw [hav]
      exact Finset.not_nonempty_empty
    simp [Pool.pull, ha, dif_neg hne, hcard]

/-- C5 witness: the pool-limit case of `pool_pull_cases` evaluated on
a concrete full pool of capacity one. -/
theorem pool_pull_cases_witness :
    PoolInv { active := true, available := ∅, inUse := {0}, poolsize := 1, next := 1 } ∧
    Pool.pull true { active := true, available := ∅, inUse := {0}, poolsize := 1, next := 1 } =
      .error .poolLimit :=
  ⟨by decide,
    (pool_pull_cases { active := true, available := ∅, inUse := {0}, poolsize := 1, next := 1 }
        true (by decide)).2.2.2 rfl rfl (by decide)⟩

/-- C9: `pullRetry` polls `pull` once per configured interval (5
milliseconds) against the pool states the polls observe, until a poll
yields a session or the 5 second deadline exhausts the polls; its
result is either a session or the deadline error — the pool-closed and
pool-limit failures of the individual `pull` attempts are never
surfaced. -/
theorem pullRetry_success_or_deadline (dialOk : Bool) (polls : List Pool) :
    pullRetryIntervalMillis = 5 ∧ pullRetryTimeoutMillis = 5000 ∧
    ((∃ r p', Pool.pullRetry dialOk polls = .ok (r, p')) ∨
      Pool.pullRetry dialOk polls = .error .deadline) ∧
    (∀ e, Pool.pullRetry dialOk polls = .error e → e = .deadline) := by
  refine ⟨rfl, rfl, ?_, ?_⟩
  · induction polls with
    | nil => exact Or.inr rfl
    | cons p rest ih =>
      cases hp : p.pull dialOk with
      | ok v => exact Or.inl ⟨v.1, v.2, by simp [Pool.pullRetry, hp]⟩
      | error e =>
        rcases ih with ⟨r, p', hok⟩ | hdead
        · exact Or.inl ⟨r, p', by simp [Pool.pullRetry, hp, hok]⟩
        · exact Or.inr (by simp [Pool.pullRetry, hp, hdead])
  · induction polls with
    | nil =>
      intro e he
      simpa [Pool.pullRetry] using he.symm
    | cons p rest ih =>
      intro e he
      cases hp : p.pull dialOk with
      | ok v => simp [Pool.pullRetry, hp] at he
      | error e' =>
        apply ih
        simpa [Pool.pullRetry, hp] using he

/-- C9 witness: polling a single full pool (where the individual
`pull` fails with the pool-limit error) ends in the deadline error,
not in the pull's own failure. -/
theorem pullRetry_success_or_deadline_witness :
    Pool.pullRetry true [onePool] = .error .deadline := by
  rcases (pullRetry_success_or_deadline true [onePool]).2.2.1 with ⟨r, p', h⟩ | h
  · rw [show Pool.pullRetry true [onePool] = .error .deadline from by decide] at h
    exact absurd h (by simp)
  · exact h

/-- `pull` preserves the pool invariant. -/
theorem pull_preserves_inv (p : Pool) (dialOk : Bool) (r : Nat) (p' : Pool)
    (hInv : PoolInv p) (h : p.pull dialOk = .ok (r, p')) : PoolInv p' := by
  obtain ⟨hdisj, hcard, hfresh⟩ := hInv
  unfold Pool.pull at h
  split at h
  · exact absurd h (by simp)
  · next hact =>
    split at h
    · next hav =>
      simp only [Except.ok.injEq, Prod.mk.injEq] at h
      obtain ⟨hr, hp'⟩ := h
      subst hp'
      have hmem : p.available.min' hav ∈ p.available := p.available.min'_mem hav
      have hnin : p.available.min' hav ∉ p.inUse := Finset.disjoint_left.mp hdisj hmem
      refine ⟨?_, ?_, ?_⟩
      · rw [Finset.disjoint_left]
        intro x hx hx'
        rw [Finset.mem_erase] at hx
        rcases Finset.mem_insert.mp hx' with hxr | hxu
        · exact hx.1 hxr
        · exact Finset.disjoint_left.mp hdisj hx.2 hxu
      · have h1 : (p.available.erase (p.available.min' hav)).card = p.available.card - 1 :=
          Finset.card_erase_of_mem hmem
        have h2 : (insert (p.available.min' hav) p.inUse).card = p.inUse.card + 1 :=
          Finset.card_insert_of_not_mem hnin
        have h3 : 0 < p.available.card := Finset.card_pos.mpr hav
        simp only [h1, h2]
        omega
      · intro s hs
        rcases Finset.mem_union.mp hs with hs | hs
        · exact hfresh s (Finset.mem_union_left _ (Finset.mem_of_mem_erase hs))
        · rcases Finset.mem_insert.mp hs with hs | hs
          · subst hs
            exact hfresh _ (Finset.mem_union_left _ hmem)
          · exact hfresh s (Finset.mem_union_right _ hs)
    · next hav =>
      have hempty : p.available = ∅ := Finset.not_nonempty_iff_eq_empty.mp hav
      have hac : p.available.card = 0 := by rw [hempty]; rfl
      split at h
      · next hcap =>
        split at h
        · exact absurd h (by simp)
        · simp only [Except.ok.injEq, Prod.mk.injEq] at h
          obtain ⟨hr, hp'⟩ := h
          subst hp'
          have hnin : p.next ∉ p.inUse := fun hmem =>
            absurd (hfresh p.next (Finset.mem_union_right _ hmem)) (lt_irrefl _)
          refine ⟨?_, ?_, ?_⟩
          · show Disjoint p.available (insert p.next p.inUse)
            rw [hempty]
            simp
          · show p.available.card + (insert p.next p.inUse).card ≤ p.poolsize
            have h2 : (insert p.next p.inUse).card = p.inUse.card + 1 :=
              Finset.card_insert_of_not_mem hnin
            omega
          · intro s hs
            show s < p.next + 1
            rcases Finset.mem_union.mp hs with hs | hs
            · have hs' : s ∈ p.available := hs
              rw [hempty] at hs'
              exact absurd hs' (Finset.not_mem_empty s)
            · have hs' : s ∈ insert p.next p.inUse := hs
              rcases Finset.mem_insert.mp hs' with hs'' | hs''
              · omega
              · have := hfresh s (Finset.mem_union_right _ hs'')
                omega
      · exact absurd h (by simp)

/-- `push` of an in-use session preserves the pool invariant. -/
theorem push_preserves_inv (p : Pool) (r : Nat) (hInv : PoolInv p) (hr : r ∈ p.inUse) :
    PoolInv (p.push r) := by
  obtain ⟨hdisj, hcard, hfresh⟩ := hInv
  have hcardUse : 0 < p.inUse.card := Finset.card_pos.mpr ⟨r, hr⟩
  have herase : (p.inUse.erase r).card = p.inUse.card - 1 := Finset.card_erase_of_mem hr
  have hrnotavail : r ∉ p.available := fun hmem => Finset.disjoint_left.mp hdisj hmem hr
  unfold Pool.push
  split
  · refine ⟨?_, ?_, ?_⟩
    · exact hdisj.mono_right (Finset.erase_subset _ _)
    · simp only [herase]
      omega
    · intro s hs
      rcases Finset.mem_union.mp hs with hs | hs
      · exact hfresh s (Finset.mem_union_left _ hs)
      · exact hfresh s (Finset.mem_union_right _ (Finset.mem_of_mem_erase hs))
  · refine ⟨?_, ?_, ?_⟩
    · rw [Finset.disjoint_left]
      intro x hx hx'
      rw [Finset.mem_erase] at hx'
      rcases Finset.mem_insert.mp hx with hxr | hxa
      · exact hx'.1 hxr
      · exact Finset.disjoint_left.mp hdisj hxa hx'.2
    · have hins : (insert r p.available).card = p.available.card + 1 :=
        Finset.card_insert_of_not_mem hrnotavail
      simp only [hins, herase]
      omega
    · intro s hs
      rcases Finset.mem_union.mp hs with hs | hs
      · rcases Finset.mem_insert.mp hs with hs | hs
        · exact hs ▸ hfresh r (Finset.mem_union_right _ hr)
        · exact hfresh s (Finset.mem_union_left _ hs)
      · exact hfresh s (Finset.mem_union_right _ (Finset.mem_of_mem_erase hs))

/-- `kill` preserves the pool invariant. -/
theorem kill_preserves_inv (p : Pool) (r : Nat) (hInv : PoolInv p) : PoolInv (p.kill r) := by
  obtain ⟨hdisj, hcard, hfresh⟩ := hInv
  have herase : (p.inUse.erase r).card ≤ p.inUse.card := Finset.card_erase_le
  refine ⟨hdisj.mono_right (Finset.erase_subset _ _), ?_, ?_⟩
  · show p.available.card + (p.inUse.erase r).card ≤ p.poolsize
    omega
  · intro s hs
    rcases Finset.mem_union.mp hs with hs | hs
    · exact hfresh s (Finset.mem_union_left _ hs)
    · exact hfresh s (Finset.mem_union_right _ (Finset.mem_of_mem_erase hs))

/-- `close` preserves the pool invariant. -/
theorem close_preserves_inv (p : Pool) (p' : Pool) (hInv : PoolInv p)
    (h : p.close = .ok p') : PoolInv p' := by
  obtain ⟨hdisj, hcard, hfresh⟩ := hInv
  unfold Pool.close at h
  split at h
  · exact absurd h (by simp)
  · simp only [Except.ok.injEq] at h
    subst h
    refine ⟨by simp, by simpa using by omega, ?_⟩
    intro s hs
    rcases Finset.mem_union.mp hs with hs | hs
    · exact absurd hs (by simp)
    · exact hfresh s (Finset.mem_union_right _ hs)

/-- `pullRetry` preserves the pool invariant: a successful retry is a
successful `pull` from one of the polled states. -/
theorem pullRetry_preserves_inv (dialOk : Bool) (polls : List Pool) (r : Nat) (p' : Pool)
    (hpolls : ∀ q ∈ polls, PoolInv q)
    (h : Pool.pullRetry dialOk polls = .ok (r, p')) : PoolInv p' := by
  induction polls with
  | nil => exact absurd h (by simp [Pool.pullRetry])
  | cons q rest ih =>
    unfold Pool.pullRetry at h
    split at h
    · next v hq =>
      simp only [Except.ok.injEq] at h
      subst h
      exact pull_preserves_inv q dialOk r p' (hpolls q (by simp)) hq
    · next e hq =>
      exact ih (fun q' hq' => hpolls q' (by simp [hq'])) h

/-- `pullForced` always preserves disjointness of the two session sets
(but not the capacity bound). -/
theorem pullForced_preserves_disjoint (p : Pool) (dialOk : Bool) (r : Nat) (p' : Pool)
    (hInv : PoolInv p) (h : p.pullForced dialOk = .ok (r, p')) :
    Disjoint p'.available p'.inUse ∧ ∀ s ∈ p'.available ∪ p'.inUse, s < p'.next := by
  obtain ⟨hdisj, hcard, hfresh⟩ := hInv
  unfold Pool.pullForced at h
  split at h
  · exact absurd h (by simp)
  · split at h
    · exact absurd h (by simp)
    · simp only [Except.ok.injEq, Prod.mk.injEq] at h
      obtain ⟨hr, hp'⟩ := h
      subst hp'
      constructor
      · show Disjoint p.available (insert p.next p.inUse)
        rw [Finset.disjoint_left]
        intro x hx hx'
        rcases Finset.mem_insert.mp hx' with hxn | hxu
        · exact absurd (hxn ▸ hfresh x (Finset.mem_union_left _ hx)) (lt_irrefl _)
        · exact Finset.disjoint_left.mp hdisj hx hxu
      · intro s hs
        show s < p.next + 1
        rcases Finset.mem_union.mp hs with hs | hs
        · have := hfresh s (Finset.mem_union_left _ hs)
          omega
        · rcases Finset.mem_insert.mp hs with hs | hs
          · omega
          · have := hfresh s (Finset.mem_union_right _ hs)
            omega

/-- C1 (amended): a freshly opened pool satisfies the invariant —
disjoint available/in-use sets with at most `poolsize` sessions in
total — and the invariant is preserved by `pull`, `pullRetry`, `push`
of an in-use session, `kill` and `close`; `pullForced` preserves the
disjointness of the two sets but, creating a session with no capacity
check, does not preserve the capacity bound. -/
theorem pool_invariant_preservation (C : Nat) :
    PoolInv (newPool C) ∧
    (∀ p dialOk r p', PoolInv p → Pool.pull dialOk p = .ok (r, p') → PoolInv p') ∧
    (∀ dialOk polls r p', (∀ q ∈ polls, PoolInv q) →
      Pool.pullRetry dialOk polls = .ok (r, p') → PoolInv p') ∧
    (∀ p r, PoolInv p → r ∈ p.inUse → PoolInv (Pool.push r p)) ∧
    (∀ p r, PoolInv p → PoolInv (Pool.kill r p)) ∧
    (∀ p p', PoolInv p → Pool.close p = .ok p' → PoolInv p') ∧
    (∀ p dialOk r p', PoolInv p → Pool.pullForced dialOk p = .ok (r, p') →
      Disjoint p'.available p'.inUse) := by
  refine ⟨⟨by simp [newPool], by simp [newPool], by simp [newPool]⟩,
    fun p dialOk r p' h1 h2 => pull_preserves_inv p dialOk r p' h1 h2,
    fun dialOk polls r p' h1 h2 => pullRetry_preserves_inv dialOk polls r p' h1 h2,
    fun p r h1 h2 => push_preserves_inv p r h1 h2,
    fun p r h1 => kill_preserves_inv p r h1,
    fun p p' h1 h2 => close_preserves_inv p p' h1 h2,
    fun p dialOk r p' h1 h2 => (pullForced_preserves_disjoint p dialOk r p' h1 h2).1⟩

/-- C1 witness: `pool_invariant_preservation` applied at capacity one,
with its `push` clause instantiated on a concrete pool. -/
theorem pool_invariant_preservation_witness : PoolInv (Pool.push 0 onePool) :=
  (pool_invariant_preservation 1).2.2.2.1 onePool 0 (by decide) (by decide)

/-- C1 counterexample: the claim also includes `pullForced` among the
operations preserving `|available| + |in-use| ≤ capacity`, but
`pullForced` on a full (yet invariant-satisfying) pool of capacity one
yields a pool holding two in-use sessions: the sum exceeds the
capacity. -/
theorem pool_pullForced_exceeds_capacity :
    PoolInv onePool ∧
    Pool.pullForced true onePool =
      .ok (1, { active := true, available := ∅, inUse := {0, 1}, poolsize := 1, next := 2 }) ∧
    ¬ (({} : Finset Nat).card + ({0, 1} : Finset Nat).card ≤ 1) := by decide

/-! ## Decoder case lemmas -/

/-- A status line decodes to a status response carrying the line minus
its terminator. -/
theorem receiveResponse_status (input line rest tl : List Nat)
    (hline : readLine input = some (line, rest)) (hhd : line = 43 :: tl)
    (hlen : 3 ≤ line.length) :
    receiveResponse input =
      some ({ kind := .statusResponse, length := 0,
              data := line.take (line.length - 2), err := none }, rest) := by
  subst hhd
  simp only [List.length_cons] at hlen
  have h3 : ¬ (tl.length + 1 < 3) := by omega
  have h2 : 2 ≤ tl.length := by omega
  simp [receiveResponse, hline, h3, h2]

/-- An error line decodes to an error response carrying the line minus
its terminator. -/
theorem receiveResponse_error (input line rest tl : List Nat)
    (hline : readLine input = some (line, rest)) (hhd : line = 45 :: tl)
    (hlen : 3 ≤ line.length) :
    receiveResponse input =
      some ({ kind := .errorResponse, length := 0,
              data := line.take (line.length - 2), err := none }, rest) := by
  subst hhd
  simp only [List.length_cons] at hlen
  have h3 : ¬ (tl.length + 1 < 3) := by omega
  have h2 : 2 ≤ tl.length := by omega
  simp [receiveResponse, hline, h3, h2]

/-- An integer line decodes to an integer response carrying the line's
content (after the type byte, before the terminator). -/
theorem receiveResponse_integer (input line rest tl : List Nat)
    (hline : readLine input = some (line, rest)) (hhd : line = 58 :: tl)
    (hlen : 3 ≤ line.length) :
    receiveResponse input =
      some ({ kind := .integerResponse, length := 0,
              data := (line.drop 1).take (line.length - 3), err := none }, rest) := by
  subst hhd
  simp only [List.length_cons] at hlen
  have h3 : ¬ (tl.length + 1 < 3) := by omega
  have h2 : 2 ≤ tl.length := by omega
  simp [receiveResponse, hline, h3, h2]

/-- A bulk line with declared length −1 decodes to a null-bulk
response, reading no further bytes. -/
theorem receiveResponse_nullBulk (input line rest tl : List Nat)
    (hline : readLine input = some (line, rest)) (hhd : line = 36 :: tl)
    (hlen : 3 ≤ line.length)
    (hN : atoi ((line.drop 1).take (line.length - 3)) = some (-1)) :
    receiveResponse input =
      some ({ kind := .nullBulkResponse, length := 0, data := [], err := none }, rest) := by
  subst hhd
  simp only [List.length_cons] at hlen
  have h3 : ¬ (tl.length + 1 < 3) := by omega
  have h2 : 2 ≤ tl.length := by omega
  simp only [List.drop_succ_cons, List.drop_zero, List.length_cons] at hN
  rw [(by omega : tl.length + 1 - 3 = tl.length - 2)] at hN
  simp [receiveResponse, hline, h3, h2, hN]

/-- A bulk line with declared length N ≥ 0 and N + 2 bytes present
decodes to a bulk response whose payload is exactly the next N bytes,
consuming those N bytes plus the trailing terminator. -/
theorem receiveResponse_bulk (input line rest tl : List Nat) (N : Int)
    (hline : readLine input = some (line, rest)) (hhd : line = 36 :: tl)
    (hlen : 3 ≤ line.length)
    (hN : atoi ((line.drop 1).take (line.length - 3)) = some N)
    (hpos : 0 ≤ N) (hrest : N.toNat + 2 ≤ rest.length) :
    receiveResponse input =
      some ({ kind := .bulkResponse, length := 0, data := rest.take N.toNat,
              err := none }, rest.drop (N.toNat + 2)) := by
  subst hhd
  simp only [List.length_cons] at hlen
  have h3 : ¬ (tl.length + 1 < 3) := by omega
  have h2 : 2 ≤ tl.length := by omega
  have hne : ¬ (N = -1) := by omega
  have hlt : ¬ (N < -1) := by omega
  have hr : ¬ (rest.length < N.toNat + 2) := by omega
  simp only [List.drop_succ_cons, List.drop_zero, List.length_cons] at hN
  rw [(by omega : tl.length + 1 - 3 = tl.length - 2)] at hN
  simp [receiveResponse, hline, h3, h2, hN, hne, hlt, hr]

/-- An array line with declared count −1 decodes to the timeout
marker. -/
theorem receiveResponse_timeout (input line rest tl : List Nat)
    (hline : readLine input = some (line, rest)) (hhd : line = 42 :: tl)
    (hlen : 3 ≤ line.length)
    (hN : atoi ((line.drop 1).take (line.length - 3)) = some (-1)) :
    receiveResponse input =
      some ({ kind := .timeoutError, length := 0, data := [], err := none }, rest) := by
  subst hhd
  simp only [List.length_cons] at hlen
  have h3 : ¬ (tl.length + 1 < 3) := by omega
  have h2 : 2 ≤ tl.length := by omega
  simp only [List.drop_succ_cons, List.drop_zero, List.length_cons] at hN
  rw [(by omega : tl.length + 1 - 3 = tl.length - 2)] at hN
  simp [receiveResponse, hline, h3, h2, hN]

/-- An array line with declared count N ≠ −1 decodes to an array
header declaring N elements. -/
theorem receiveResponse_array (input line rest tl : List Nat) (N : Int)
    (hline : readLine input = some (line, rest)) (hhd : line = 42 :: tl)
    (hlen : 3 ≤ line.length)
    (hN : atoi ((line.drop 1).take (line.length - 3)) = some N) (hne : N ≠ -1) :
    receiveResponse input =
      some ({ kind := .arrayResponse, length := N, data := [], err := none }, rest) := by
  subst hhd
  simp only [List.length_cons] at hlen
  have h3 : ¬ (tl.length + 1 < 3) := by omega
  have h2 : 2 ≤ tl.length := by omega
  simp only [List.drop_succ_cons, List.drop_zero, List.length_cons] at hN
  rw [(by omega : tl.length + 1 - 3 = tl.length - 2)] at hN
  simp [receiveResponse, hline, h3, h2, hN, hne]

/-- Any other leading byte decodes to the protocol-violation failure. -/
theorem receiveResponse_invalid (input line rest : List Nat) (b : Nat) (tl : List Nat)
    (hline : readLine input = some (line, rest)) (hhd : line = b :: tl)
    (hlen : 3 ≤ line.length)
    (h43 : b ≠ 43) (h45 : b ≠ 45) (h58 : b ≠ 58) (h36 : b ≠ 36) (h42 : b ≠ 42) :
    receiveResponse input =
      some ({ kind := .receivingError, length := 0, data := [],
              err := some .invalid }, rest) := by
  subst hhd
  simp only [List.length_cons] at hlen
  have h3 : ¬ (tl.length + 1 < 3) := by omega
  have h2 : 2 ≤ tl.length := by omega
  simp [receiveResponse, hline, h3, h2, h43, h45, h58, h36, h42]

/-- C2 (amended): for every reply whose first line is at least three
bytes long, the leading byte determines the decoded kind — `+` status,
`-` error, `:` integer; `$` with parsed declared length N gives the
null-bulk reply for N = −1 (reading no further bytes) and, for N ≥ 0
with enough bytes present, a bulk reply whose payload is exactly the
next N bytes, consuming them plus the trailing terminator; `*` with
parsed count N gives the timeout marker for N = −1 and otherwise an
array header declaring N elements; any other leading byte gives the
protocol-violation failure.  (The unamended claim fails for first
lines shorter than three bytes and for `$` with a declared length
below −1, where the Go code panics instead.) -/
theorem receiveResponse_kind_classification (input line rest : List Nat)
    (hline : readLine input = some (line, rest)) (hlen : 3 ≤ line.length) :
    (∀ tl, line = 43 :: tl →
      receiveResponse input =
        some ({ kind := .statusResponse, length := 0,
                data := line.take (line.length - 2), err := none }, rest)) ∧
    (∀ tl, line = 45 :: tl →
      receiveResponse input =
        some ({ kind := .errorResponse, length := 0,
                data := line.take (line.length - 2), err := none }, rest)) ∧
    (∀ tl, line = 58 :: tl →
      receiveResponse input =
        some ({ kind := .integerResponse, length := 0,
                data := (line.drop 1).take (line.length - 3), err := none }, rest)) ∧
    (∀ tl N, line = 36 :: tl → atoi ((line.drop 1).take (line.length - 3)) = some N →
      (N = -1 →
        receiveResponse input =
          some ({ kind := .nullBulkResponse, length := 0, data := [], err := none }, rest)) ∧
      (0 ≤ N → N.toNat + 2 ≤ rest.length →
        receiveResponse input =
          some ({ kind := .bulkResponse, length := 0, data := rest.take N.toNat,
                  err := none }, rest.drop (N.toNat + 2)))) ∧
    (∀ tl N, line = 42 :: tl → atoi ((line.drop 1).take (line.length - 3)) = some N →
      (N = -1 →
        receiveResponse input =
          some ({ kind := .timeoutError, length := 0, data := [], err := none }, rest)) ∧
      (N ≠ -1 →
        receiveResponse input =
          some ({ kind := .arrayResponse, length := N, data := [], err := none }, rest))) ∧
    (∀ b tl, line = b :: tl → b ≠ 43 → b ≠ 45 → b ≠ 58 → b ≠ 36 → b ≠ 42 →
      receiveResponse input =
        some ({ kind := .receivingError, length := 0, data := [],
                err := some .invalid }, rest)) := by
  refine ⟨fun tl h => receiveResponse_status input line rest tl hline h hlen,
    fun tl h => receiveResponse_error input line rest tl hline h hlen,
    fun tl h => receiveResponse_integer input line rest tl hline h hlen,
    fun tl N h hN => ⟨fun h1 => ?_, fun h0 hr =>
      receiveResponse_bulk input line rest tl N hline h hlen hN h0 hr⟩,
    fun tl N h hN => ⟨fun h1 => ?_, fun hne =>
      receiveResponse_array input line rest tl N hline h hlen hN hne⟩,
    fun b tl h h43 h45 h58 h36 h42 =>
      receiveResponse_invalid input line rest b tl hline h hlen h43 h45 h58 h36 h42⟩
  · exact receiveResponse_nullBulk input line rest tl hline h hlen (h1 ▸ hN)
  · exact receiveResponse_timeout input line rest tl hline h hlen (h1 ▸ hN)

/-- C2 witness: the classification applied to the concrete integer
reply line `:5` followed by the terminator. -/
theorem receiveResponse_kind_classification_witness :
    readLine [58, 53, 13, 10] = some ([58, 53, 13, 10], []) ∧
    receiveResponse [58, 53, 13, 10] =
      some ({ kind := .integerResponse, length := 0, data := [53], err := none }, []) :=
  ⟨by decide,
    (receiveResponse_kind_classification [58, 53, 13, 10] [58, 53, 13, 10] []
        (by decide) (by decide)).2.2.1 [53, 13, 10] rfl⟩

/-- C2 counterexample: the claim as stated promises a
protocol-violation failure for any unrecognized leading byte, but on
the one-byte line consisting of a single line feed the Go code panics
(the slice `line[1 : len(line)-2]` is out of range) instead of
returning a response; the model yields the panic marker `none`, which
is no response at all. -/
theorem receiveResponse_short_line_crashes :
    receiveResponse [10] = none ∧
    ∀ r rest, ¬ (receiveResponse [10] = some (r, rest) ∧ r.err = some RecvErr.invalid) := by
  have h : receiveResponse [10] = none := by decide
  exact ⟨h, fun r rest hc => by rw [h] at hc; exact absurd hc.1 (by simp)⟩

/-- The payload the specification's reply table assigns to a status
reply, stated from the spec's words for comparison with the decoder:
the rest of the reply line after the leading type byte, without the
line terminator. -/
def specStatusRest (line : List Nat) : List Nat :=
  (line.drop 1).take (line.length - 3)

/-- C7 counterexample: the claim says the value delivered for a status
reply is the rest of the reply line (after the type byte), but for the
reply line `+PONG` the decoder delivers `+PONG` — the whole line with
the terminator stripped, keeping the leading `+` — which differs from
the rest of the line `PONG`. -/
theorem status_value_keeps_type_byte :
    receiveResponse (strToBytes "+PONG" ++ crlf) =
      some ({ kind := .statusResponse, length := 0, data := strToBytes "+PONG",
              err := none }, []) ∧
    strToBytes "+PONG" ≠ specStatusRest (strToBytes "+PONG" ++ crlf) := by decide

/-- C7 (amended): for every status reply the delivered value is the
entire reply line including the leading `+`, with only the terminator
stripped; in particular the `PING` scenario holds with that reading:
the reply line `+PONG` decodes to a result set whose first value is
exactly the string `+PONG`, case and format exact. -/
theorem status_reply_value_and_ping (input line rest tl : List Nat)
    (hline : readLine input = some (line, rest)) (hhd : line = 43 :: tl)
    (hlen : 3 ≤ line.length) :
    receiveResponse input =
      some ({ kind := .statusResponse, length := 0,
              data := line.take (line.length - 2), err := none }, rest) ∧
    receiveResultSet (strToBytes "+PONG" ++ crlf) =
      .ok ((0, [RItem.value (strToBytes "+PONG")]), []) ∧
    stringAt (0, [RItem.value (strToBytes "+PONG")]) 0 = some "+PONG" := by
  exact ⟨receiveResponse_status input line rest tl hline hhd hlen, by decide, by decide⟩

/-- C7 witness: the amended status-value theorem applied to the
concrete `+PONG` reply line. -/
theorem status_reply_value_and_ping_witness :
    receiveResponse (strToBytes "+PONG" ++ crlf) =
      some ({ kind := .statusResponse, length := 0,
              data := (strToBytes "+PONG" ++ crlf).take
                ((strToBytes "+PONG" ++ crlf).length - 2), err := none }, []) :=
  (status_reply_value_and_ping (strToBytes "+PONG" ++ crlf) (strToBytes "+PONG" ++ crlf)
      [] (strToBytes "PONG" ++ crlf) (by decide) (by decide) (by decide)).1

/-! ## Connection release and reuse (C8) -/

/-- A concrete connection holding session 0 of `onePool`. -/
def usedConn : Connection :=
  { pool := onePool, resp := some 0 }

/-- C8 counterexample: the claim says a `Do` after `Return` returns a
failure rather than crashing, but on a concrete released connection
`Do` dereferences the cleared (nil) session reference and panics — the
model yields the panic marker `none`, never any returned value. -/
theorem do_after_return_crashes_concrete :
    Connection.Do true [] "ping" (Connection.Return 0 usedConn) = none ∧
    ∀ res, Connection.Do true [] "ping" (Connection.Return 0 usedConn) ≠ some res := by
  have h : Connection.Do true [] "ping" (Connection.Return 0 usedConn) = none := by decide
  exact ⟨h, fun res hc => by rw [h] at hc; exact Option.noConfusion hc⟩

/-- C8 (amended): releasing a Connection pushes its session back into
the pool and clears the session reference, making the Connection
unusable; a subsequent `Do` of a non-subscription command then
dereferences the nil session and crashes (a Go panic) instead of
returning a failure. -/
theorem return_then_do_crashes (st : Connection) (s : Nat) (cmd : String)
    (sendOk : Bool) (stream : List Nat)
    (hcmd : hasSubscribe (lowerStr cmd) = false) :
    (Connection.Return s st).pool = st.pool.push s ∧
    (Connection.Return s st).resp = none ∧
    Connection.Do sendOk stream cmd (Connection.Return s st) = none := by
  refine ⟨rfl, rfl, ?_⟩
  simp [Connection.Do, Connection.Return, hcmd]

/-- C8 witness: the amended theorem applied to the concrete released
connection and the command `get`. -/
theorem return_then_do_crashes_witness :
    (Connection.Return 0 usedConn).pool = usedConn.pool.push 0 ∧
    (Connection.Return 0 usedConn).resp = none ∧
    Connection.Do true [] "get" (Connection.Return 0 usedConn) = none :=
  return_then_do_crashes usedConn 0 "get" true [] (by decide)

/-! ## Pipeline ordering (C3) -/

/-- The `+PONG` status reply decodes as one flat result set, leaving
any following bytes unread. -/
theorem pong_decodes (t : List Nat) :
    receiveResultSet ([43, 80, 79, 78, 71, 13, 10] ++ t) =
      .ok ((0, [RItem.value [43, 80, 79, 78, 71]]), t) := by
  simp [receiveResultSet, receiveResultSetLoop, receiveResponse, readLine, ascend,
    allReceived]

/-- Reading `k` result sets from a stream that is the concatenation of
`k` wire replies, each decoding cleanly, yields exactly those results
in stream order and leaves the tail unread. -/
theorem collectN_flatten (ws : List (List Nat)) (rs : List RSet)
    (h : List.Forall₂ (fun w r => ∀ t, receiveResultSet (w ++ t) = .ok (r, t)) ws rs)
    (t : List Nat) :
    collectN ws.length (ws.flatten ++ t) = .ok (rs, t) := by
  induction h generalizing t with
  | nil => simp [collectN]
  | @cons w r ws' rs' hw hws ih =>
    have h1 := hw (ws'.flatten ++ t)
    simp only [List.length_cons, List.flatten_cons, List.append_assoc, collectN, h1, ih t]

/-- Reading more result sets than the stream holds clean replies for
surfaces the error of the first failing decode. -/
theorem collectN_flatten_error (ws : List (List Nat)) (rs : List RSet)
    (h : List.Forall₂ (fun w r => ∀ t, receiveResultSet (w ++ t) = .ok (r, t)) ws rs)
    (bad : List Nat) (e : Err) (hbad : receiveResultSet bad = .error e) :
    ∀ k, ws.length < k → collectN k (ws.flatten ++ bad) = .error e := by
  induction h with
  | nil =>
    intro k hk
    cases k with
    | zero => omega
    | succ k' => simp [collectN, hbad]
  | @cons w r ws' rs' hw hws ih =>
    intro k hk
    cases k with
    | zero => simp at hk
    | succ k' =>
      have hk' : ws'.length < k' := by
        simp only [List.length_cons] at hk
        omega
      have h1 := hw (ws'.flatten ++ bad)
      simp only [List.flatten_cons, List.append_assoc, collectN, h1, ih k' hk']

/-- Submitting a list of commands through `Pipeline.Do` one after the
other, stopping at the first failure. -/
def PipelineDoAll (dialOk sendOk : Bool) (cmds : List String) (st : Pipeline) :
    Except Err Unit × Pipeline :=
  match cmds with
  | [] => (.ok (), st)
  | c :: rest =>
    match Pipeline.Do dialOk sendOk c st with
    | (.ok _, st') => PipelineDoAll dialOk sendOk rest st'
    | (.error e, st') => (.error e, st')

/-- Submitting non-subscription commands on a pipeline holding a
session sends each on that session and counts one outstanding reply
per command. -/
theorem doAll_ok (cmds : List String) (st : Pipeline) (s : Nat)
    (hcmds : ∀ c ∈ cmds, hasSubscribe (lowerStr c) = false)
    (hresp : st.resp = some s) :
    PipelineDoAll true true cmds st =
      (.ok (), { st with counter := st.counter + cmds.length,
                         sent := st.sent ++ cmds.map fun c => (s, lowerStr c) }) := by
  induction cmds generalizing st with
  | nil =>
    cases st
    simp [PipelineDoAll]
  | cons c rest ih =>
    have hc : hasSubscribe (lowerStr c) = false := hcmds c (by simp)
    have hstep : Pipeline.Do true true c st =
        (.ok (), { st with counter := st.counter + 1,
                           sent := st.sent ++ [(s, lowerStr c)] }) := by
      simp [Pipeline.Do, Pipeline.ensureProtocol, hresp, hc]
    have hrest := ih { st with counter := st.counter + 1, sent := st.sent ++ [(s, lowerStr c)] }
      (fun c' hc' => hcmds c' (by simp [hc'])) (by simp [hresp])
    simp only [PipelineDoAll, hstep, hrest]
    cases st
    simp [Pipeline.mk.injEq]
    try omega

/-- C3 (amended): starting from a pipeline holding session `s` with no
outstanding replies, submitting k non-subscription commands succeeds
and counts k outstanding replies; `Collect` on a stream of k cleanly
decoding replies returns exactly those k result sets in stream (and
hence submission) order, pushes the session back to the pool and
clears the session reference — the outstanding-reply counter itself is
left at k and is reset only when the next command pulls a session —
while a stream whose next reply fails to decode after fewer than k
clean replies makes `Collect` kill the session and abort with that
decode error. -/
theorem pipeline_do_collect_ordering (p : Pool) (s : Nat) (cmds : List String)
    (hcmds : ∀ c ∈ cmds, hasSubscribe (lowerStr c) = false) :
    PipelineDoAll true true cmds { pool := p, resp := some s, counter := 0, sent := [] } =
      (.ok (), { pool := p, resp := some s, counter := cmds.length,
                         sent := cmds.map fun c => (s, lowerStr c) }) ∧
    (∀ ws rs, List.Forall₂ (fun w r => ∀ t, receiveResultSet (w ++ t) = .ok (r, t)) ws rs →
      ws.length = cmds.length →
      Pipeline.Collect true ws.flatten
          { pool := p, resp := some s, counter := cmds.length,
            sent := cmds.map fun c => (s, lowerStr c) } =
        (.ok (rs, []), { pool := p.push s, resp := none, counter := cmds.length,
                         sent := cmds.map fun c => (s, lowerStr c) })) ∧
    (∀ ws rs bad e,
      List.Forall₂ (fun w r => ∀ t, receiveResultSet (w ++ t) = .ok (r, t)) ws rs →
      ws.length < cmds.length → receiveResultSet bad = .error e →
      Pipeline.Collect true (ws.flatten ++ bad)
          { pool := p, resp := some s, counter := cmds.length,
            sent := cmds.map fun c => (s, lowerStr c) } =
        (.error e, { pool := p.kill s, resp := none, counter := cmds.length,
                     sent := cmds.map fun c => (s, lowerStr c) })) := by
  refine ⟨?_, ?_, ?_⟩
  · have := doAll_ok cmds { pool := p, resp := some s, counter := 0, sent := [] } s hcmds rfl
    simpa using this
  · intro ws rs h hlen
    have hcoll := collectN_flatten ws rs h []
    rw [List.append_nil, hlen] at hcoll
    simp [Pipeline.Collect, Pipeline.ensureProtocol, hcoll]
  · intro ws rs bad e h hlen hbad
    have hcoll := collectN_flatten_error ws rs h bad e hbad cmds.length hlen
    simp [Pipeline.Collect, Pipeline.ensureProtocol, hcoll]

/-- C3 witness: one `ping` submitted, one `+PONG` reply collected: the
single result set arrives in order, the session is pushed back and the
session reference cleared (the counter remains 1). -/
theorem pipeline_do_collect_ordering_witness :
    Pipeline.Collect true ([[43, 80, 79, 78, 71, 13, 10]].flatten)
        { pool := onePool, resp := some 0, counter := List.length ["ping"],
          sent := ["ping"].map fun c => (0, lowerStr c) } =
      (.ok ([(0, [RItem.value [43, 80, 79, 78, 71]])], []),
        { pool := onePool.push 0, resp := none, counter := List.length ["ping"],
          sent := ["ping"].map fun c => (0, lowerStr c) }) :=
  (pipeline_do_collect_ordering onePool 0 ["ping"] (by decide)).2.1
    [[43, 80, 79, 78, 71, 13, 10]] [(0, [RItem.value [43, 80, 79, 78, 71]])]
    (List.Forall₂.cons (fun t => pong_decodes t) List.Forall₂.nil) rfl

/-- A concrete fresh pipeline holding session 0 of `onePool`. -/
def pplBase : Pipeline :=
  { pool := onePool, resp := some 0, counter := 0, sent := [] }

/-- C3 counterexample: the claim states that on full success the
outstanding-reply counter is reset, but after submitting one `ping`
and collecting its `+PONG` successfully the counter still reads 1, not
0 (only the session reference is cleared; the counter is reset by the
next `Do`). -/
theorem collect_counter_not_reset :
    (Pipeline.Collect true [43, 80, 79, 78, 71, 13, 10]
        (Pipeline.Do true true "ping" pplBase).2).1 =
      .ok ([(0, [RItem.value [43, 80, 79, 78, 71]])], []) ∧
    ((Pipeline.Collect true [43, 80, 79, 78, 71, 13, 10]
        (Pipeline.Do true true "ping" pplBase).2).2).counter ≠ 0 := by decide

/-! ## Killed sessions are never reused (C6)

A trace of pool operations is a list of `PoolOp`s executed in order;
concurrent holders are modelled by the interleaving the trace fixes.
`validTrace` expresses the lending protocol the components follow:
`push` is only called by the holder of an in-use session (Connections
return the session they pulled; Pipelines push the session they
force-pulled).  `pullRetryStep` is one poll of `pullRetry` (each poll
is one `pull` against the then-current state). -/

/-- One pool operation of a trace. -/
inductive PoolOp where
  | pull (dialOk : Bool)
  | pullRetryStep (dialOk : Bool)
  | pullForced (dialOk : Bool)
  | push (r : Nat)
  | kill (r : Nat)
  | close
deriving DecidableEq, Repr

/-- The pool state after one operation (a failed operation leaves the
state unchanged). -/
def PoolOp.step (p : Pool) : PoolOp → Pool
  | .pull dialOk =>
    match p.pull dialOk with
    | .ok v => v.2
    | .error _ => p
  | .pullRetryStep dialOk =>
    match p.pull dialOk with
    | .ok v => v.2
    | .error _ => p
  | .pullForced dialOk =>
    match p.pullForced dialOk with
    | .ok v => v.2
    | .error _ => p
  | .push r => p.push r
  | .kill r => p.kill r
  | .close =>
    match p.close with
    | .ok p' => p'
    | .error _ => p

/-- The session an operation hands to its caller, if any. -/
def PoolOp.handed (p : Pool) : PoolOp → Option Nat
  | .pull dialOk =>
    match p.pull dialOk with
    | .ok v => some v.1
    | .error _ => none
  | .pullRetryStep dialOk =>
    match p.pull dialOk with
    | .ok v => some v.1
    | .error _ => none
  | .pullForced dialOk =>
    match p.pullForced dialOk with
    | .ok v => some v.1
    | .error _ => none
  | _ => none

/-- The lending protocol: a session is only pushed by its holder, so a
pushed session is in the in-use set. -/
def PoolOp.valid (p : Pool) : PoolOp → Prop
  | .push r => r ∈ p.inUse
  | _ => True

instance (p : Pool) (op : PoolOp) : Decidable (op.valid p) :=
  match op with
  | .push r => inferInstanceAs (Decidable (r ∈ p.inUse))
  | .pull _ => inferInstanceAs (Decidable True)
  | .pullRetryStep _ => inferInstanceAs (Decidable True)
  | .pullForced _ => inferInstanceAs (Decidable True)
  | .kill _ => inferInstanceAs (Decidable True)
  | .close => inferInstanceAs (Decidable True)

/-- Every operation of the trace obeys the lending protocol at the
state it runs in. -/
def validTrace (p : Pool) : List PoolOp → Prop
  | [] => True
  | op :: ops => op.valid p ∧ validTrace (op.step p) ops

/-- No operation of the trace hands session `x` to a caller. -/
def neverHands (x : Nat) (p : Pool) : List PoolOp → Prop
  | [] => True
  | op :: ops => op.handed p ≠ some x ∧ neverHands x (op.step p) ops

def decValidTrace : (ops : List PoolOp) → (p : Pool) → Decidable (validTrace p ops)
  | [], _ => .isTrue trivial
  | op :: ops, p =>
    haveI h1 : Decidable (op.valid p) := inferInstance
    haveI h2 : Decidable (validTrace (op.step p) ops) := decValidTrace ops (op.step p)
    inferInstanceAs (Decidable (op.valid p ∧ validTrace (op.step p) ops))

instance (p : Pool) (ops : List PoolOp) : Decidable (validTrace p ops) :=
  decValidTrace ops p

def decNeverHands (x : Nat) : (ops : List PoolOp) → (p : Pool) → Decidable (neverHands x p ops)
  | [], _ => .isTrue trivial
  | op :: ops, p =>
    haveI h1 : Decidable (op.handed p ≠ some x) := inferInstance
    haveI h2 : Decidable (neverHands x (op.step p) ops) := decNeverHands x ops (op.step p)
    inferInstanceAs (Decidable (op.handed p ≠ some x ∧ neverHands x (op.step p) ops))

instance (x : Nat) (p : Pool) (ops : List PoolOp) : Decidable (neverHands x p ops) :=
  decNeverHands x ops p

/-- The two possible successful outcomes of `pull`: an available
session moved to in-use, or a freshly dialled session. -/
theorem pull_ok_cases (p : Pool) (dialOk : Bool) (r : Nat) (p' : Pool)
    (h : p.pull dialOk = .ok (r, p')) :
    (r ∈ p.available ∧
      p' = { p with available := p.available.erase r, inUse := insert r p.inUse }) ∨
    (r = p.next ∧
      p' = { p with inUse := insert p.next p.inUse, next := p.next + 1 }) := by
  unfold Pool.pull at h
  split at h
  · exact absurd h (by simp)
  · split at h
    · next hav =>
      simp only [Except.ok.injEq, Prod.mk.injEq] at h
      obtain ⟨h1, h2⟩ := h
      subst h1
      exact Or.inl ⟨p.available.min'_mem hav, h2.symm⟩
    · split at h
      · split at h
        · exact absurd h (by simp)
        · simp only [Except.ok.injEq, Prod.mk.injEq] at h
          obtain ⟨h1, h2⟩ := h
          exact Or.inr ⟨h1.symm, h2.symm⟩
      · exact absurd h (by simp)

/-- The successful outcome of `pullForced`: always a freshly dialled
session. -/
theorem pullForced_ok_cases (p : Pool) (dialOk : Bool) (r : Nat) (p' : Pool)
    (h : p.pullForced dialOk = .ok (r, p')) :
    r = p.next ∧ p' = { p with inUse := insert p.next p.inUse, next := p.next + 1 } := by
  unfold Pool.pullForced at h
  split at h
  · exact absurd h (by simp)
  · split at h
    · exact absurd h (by simp)
    · simp only [Except.ok.injEq, Prod.mk.injEq] at h
      obtain ⟨h1, h2⟩ := h
      exact ⟨h1.symm, h2.symm⟩

/-- The successful outcome of `close`. -/
theorem close_ok_cases (p : Pool) (p' : Pool) (h : p.close = .ok p') :
    p' = { p with active := false, available := ∅ } := by
  unfold Pool.close at h
  split at h
  · exact absurd h (by simp)
  · simp only [Except.ok.injEq] at h
    exact h.symm

/-- A session absent from both sets and below the fresh supply stays
absent under every valid operation, and is never handed out. -/
theorem dead_stays_dead (x : Nat) :
    ∀ (ops : List PoolOp) (p : Pool),
      (∀ s ∈ p.available ∪ p.inUse, s < p.next) →
      x ∉ p.available → x ∉ p.inUse → x < p.next →
      validTrace p ops → neverHands x p ops := by
  intro ops
  induction ops with
  | nil => intro p _ _ _ _ _; trivial
  | cons op rest ih =>
    intro p hfresh hxa hxu hxn hvalid
    obtain ⟨hv, hvr⟩ := hvalid
    have hpullStep : ∀ dialOk,
        validTrace (match p.pull dialOk with | .ok v => v.2 | .error _ => p) rest →
        (match p.pull dialOk with | .ok v => some v.1 | .error _ => none) ≠ some x ∧
        neverHands x (match p.pull dialOk with | .ok v => v.2 | .error _ => p) rest := by
      intro dialOk hstep
      cases hp : p.pull dialOk with
      | ok v =>
        rw [hp] at hstep
        have hstep2 : validTrace v.2 rest := hstep
        rcases pull_ok_cases p dialOk v.1 v.2 hp with ⟨hmem, hp'⟩ | ⟨hr, hp'⟩
        · have hne : v.1 ≠ x := fun he => hxa (he ▸ hmem)
          refine ⟨by simp [hne], ?_⟩
          show neverHands x v.2 rest
          rw [hp']
          apply ih
          · intro s hs
            show s < p.next
            rcases Finset.mem_union.mp hs with hs | hs
            · exact hfresh s (Finset.mem_union_left _ (Finset.mem_of_mem_erase hs))
            · have hs' : s ∈ insert v.1 p.inUse := hs
              rcases Finset.mem_insert.mp hs' with hs'' | hs''
              · exact hs'' ▸ hfresh v.1 (Finset.mem_union_left _ hmem)
              · exact hfresh s (Finset.mem_union_right _ hs'')
          · exact fun hmem' => hxa (Finset.mem_of_mem_erase hmem')
          · intro hmem'
            have hmem'' : x ∈ insert v.1 p.inUse := hmem'
            rcases Finset.mem_insert.mp hmem'' with h1 | h1
            · exact hne h1.symm
            · exact hxu h1
          · exact hxn
          · exact hp' ▸ hstep2
        · have hne : v.1 ≠ x := by omega
          refine ⟨by simp [hne], ?_⟩
          show neverHands x v.2 rest
          rw [hp']
          apply ih
          · intro s hs
            show s < p.next + 1
            rcases Finset.mem_union.mp hs with hs | hs
            · have := hfresh s (Finset.mem_union_left _ hs)
              omega
            · have hs' : s ∈ insert p.next p.inUse := hs
              rcases Finset.mem_insert.mp hs' with hs'' | hs''
              · omega
              · have := hfresh s (Finset.mem_union_right _ hs'')
                omega
          · exact hxa
          · intro hmem'
            have hmem'' : x ∈ insert p.next p.inUse := hmem'
            rcases Finset.mem_insert.mp hmem'' with h1 | h1
            · omega
            · exact hxu h1
          · show x < p.next + 1
            omega
          · exact hp' ▸ hstep2
      | error e =>
        rw [hp] at hstep
        exact ⟨by simp, ih p hfresh hxa hxu hxn hstep⟩
    cases op with
    | pull dialOk =>
      exact ⟨(hpullStep dialOk hvr).1, (hpullStep dialOk hvr).2⟩
    | pullRetryStep dialOk =>
      exact ⟨(hpullStep dialOk hvr).1, (hpullStep dialOk hvr).2⟩
    | pullForced dialOk =>
      refine ⟨?_, ?_⟩
      · show (match p.pullForced dialOk with | .ok v => some v.1 | .error _ => none) ≠ some x
        cases hp : p.pullForced dialOk with
        | ok v =>
          obtain ⟨hr, hp'⟩ := pullForced_ok_cases p dialOk v.1 v.2 hp
          have : v.1 ≠ x := by omega
          simp [this]
        | error e => simp
      · show neverHands x
          (match p.pullForced dialOk with | .ok v => v.2 | .error _ => p) rest
        cases hp : p.pullForced dialOk with
        | ok v =>
          obtain ⟨hr, hp'⟩ := pullForced_ok_cases p dialOk v.1 v.2 hp
          have hvr0 : validTrace
              (match p.pullForced dialOk with | .ok w => w.2 | .error _ => p) rest := hvr
          rw [hp] at hvr0
          have hvr2 : validTrace v.2 rest := hvr0
          show neverHands x v.2 rest
          rw [hp']
          apply ih
          · intro s hs
            show s < p.next + 1
            rcases Finset.mem_union.mp hs with hs | hs
            · have := hfresh s (Finset.mem_union_left _ hs)
              omega
            · have hs' : s ∈ insert p.next p.inUse := hs
              rcases Finset.mem_insert.mp hs' with hs'' | hs''
              · omega
              · have := hfresh s (Finset.mem_union_right _ hs'')
                omega
          · exact hxa
          · intro hmem'
            have hmem'' : x ∈ insert p.next p.inUse := hmem'
            rcases Finset.mem_insert.mp hmem'' with h1 | h1
            · omega
            · exact hxu h1
          · show x < p.next + 1
            omega
          · exact hp' ▸ hvr2
        | error e =>
          have hvr0 : validTrace
              (match p.pullForced dialOk with | .ok w => w.2 | .error _ => p) rest := hvr
          rw [hp] at hvr0
          exact ih p hfresh hxa hxu hxn hvr0
    | push r =>
      have hrmem : r ∈ p.inUse := hv
      have hrx : r ≠ x := fun he => hxu (he ▸ hrmem)
      refine ⟨by simp [PoolOp.handed], ?_⟩
      show neverHands x (p.push r) rest
      have hvr2 : validTrace (p.push r) rest := hvr
      simp only [Pool.push] at hvr2 ⊢
      by_cases hcond : p.active = false ∨ p.poolsize ≤ p.available.card
      · rw [if_pos hcond] at hvr2 ⊢
        apply ih
        · intro s hs
          show s < p.next
          rcases Finset.mem_union.mp hs with hs | hs
          · exact hfresh s (Finset.mem_union_left _ hs)
          · exact hfresh s (Finset.mem_union_right _ (Finset.mem_of_mem_erase hs))
        · exact hxa
        · exact fun hmem' => hxu (Finset.mem_of_mem_erase hmem')
        · exact hxn
        · exact hvr2
      · rw [if_neg hcond] at hvr2 ⊢
        apply ih
        · intro s hs
          show s < p.next
          rcases Finset.mem_union.mp hs with hs | hs
          · have hs' : s ∈ insert r p.available := hs
            rcases Finset.mem_insert.mp hs' with hs'' | hs''
            · exact hs'' ▸ hfresh r (Finset.mem_union_right _ hrmem)
            · exact hfresh s (Finset.mem_union_left _ hs'')
          · exact hfresh s (Finset.mem_union_right _ (Finset.mem_of_mem_erase hs))
        · intro hmem'
          have hmem'' : x ∈ insert r p.available := hmem'
          rcases Finset.mem_insert.mp hmem'' with h1 | h1
          · exact hrx h1.symm
          · exact hxa h1
        · exact fun hmem' => hxu (Finset.mem_of_mem_erase hmem')
        · exact hxn
        · exact hvr2
    | kill r =>
      refine ⟨by simp [PoolOp.handed], ?_⟩
      show neverHands x (p.kill r) rest
      apply ih
      · intro s hs
        show s < p.next
        rcases Finset.mem_union.mp hs with hs | hs
        · exact hfresh s (Finset.mem_union_left _ hs)
        · exact hfresh s (Finset.mem_union_right _ (Finset.mem_of_mem_erase hs))
      · exact hxa
      · exact fun hmem' => hxu (Finset.mem_of_mem_erase hmem')
      · exact hxn
      · exact hvr
    | close =>
      refine ⟨by simp [PoolOp.handed], ?_⟩
      show neverHands x (match p.close with | .ok p' => p' | .error _ => p) rest
      cases hp : p.close with
      | ok p' =>
        have hvr0 : validTrace
            (match p.close with | .ok q => q | .error _ => p) rest := hvr
        rw [hp] at hvr0
        rw [close_ok_cases p p' hp] at hvr0
        rw [close_ok_cases p p' hp]
        apply ih
        · intro s hs
          show s < p.next
          rcases Finset.mem_union.mp hs with hs | hs
          · have hs' : s ∈ (∅ : Finset Nat) := hs
            exact absurd hs' (Finset.not_mem_empty s)
          · exact hfresh s (Finset.mem_union_right _ hs)
        · exact Finset.not_mem_empty x
        · exact hxu
        · exact hxn
        · exact hvr0
      | error e =>
        have hvr0 : validTrace
            (match p.close with | .ok q => q | .error _ => p) rest := hvr
        rw [hp] at hvr0
        exact ih p hfresh hxa hxu hxn hvr0

/-- C6: once `kill` removes a session from the pool (after a handshake
failure, an I/O failure, or a failed pipeline read), no later `pull`,
`pullRetry` poll, or `pullForced` of any valid trace of pool
operations ever hands that session to a caller: later pulls hand out
either a session still available or a freshly dialled one, never the
killed session. -/
theorem killed_session_never_reused (p : Pool) (x : Nat) (ops : List PoolOp)
    (hfresh : ∀ s ∈ p.available ∪ p.inUse, s < p.next)
    (hx : x < p.next) (hxa : x ∉ p.available)
    (hvalid : validTrace (p.kill x) ops) :
    neverHands x (p.kill x) ops := by
  apply dead_stays_dead
  · intro s hs
    show s < p.next
    rcases Finset.mem_union.mp hs with hs | hs
    · exact hfresh s (Finset.mem_union_left _ hs)
    · exact hfresh s (Finset.mem_union_right _ (Finset.mem_of_mem_erase hs))
  · exact hxa
  · exact Finset.not_mem_erase x p.inUse
  · exact hx
  · exact hvalid

/-- C6 witness: after killing session 0 of a two-slot pool, a trace
that pulls twice, pushes and pulls again never hands session 0 out. -/
theorem killed_session_never_reused_witness :
    neverHands 0
      (Pool.kill 0 { active := true, available := ∅, inUse := {0}, poolsize := 2, next := 1 })
      [.pull true, .pullForced true, .push 1, .pullRetryStep true] :=
  killed_session_never_reused
    { active := true, available := ∅, inUse := {0}, poolsize := 2, next := 1 } 0
    [.pull true, .pullForced true, .push 1, .pullRetryStep true]
    (by decide) (by decide) (by decide) (by decide)

/-! ## Handshake only at pipeline creation (C10) -/

/-- `push` never changes the active flag. -/
theorem push_active (q : Pool) (s : Nat) : (q.push s).active = q.active := by
  unfold Pool.push
  split <;> rfl

/-- `push` never changes the fresh-identifier supply. -/
theorem push_next (q : Pool) (s : Nat) : (q.push s).next = q.next := by
  unfold Pool.push
  split <;> rfl

/-- The pipeline state right after a successful `newPipeline` with a
configured password on pool `p`: session `p.next` force-pulled, the
authenticate and select commands sent on it, nothing outstanding. -/
def pplAfterNew (p : Pool) : Pipeline :=
  { pool := { p with inUse := insert p.next p.inUse, next := p.next + 1 },
    resp := some p.next, counter := 0,
    sent := [(p.next, "auth"), (p.next, "select")] }

/-- The state after one command submitted on the fresh pipeline. -/
def pplAfterDo1 (p : Pool) (c1 : String) : Pipeline :=
  { pool := { p with inUse := insert p.next p.inUse, next := p.next + 1 },
    resp := some p.next, counter := 1,
    sent := [(p.next, "auth"), (p.next, "select"), (p.next, lowerStr c1)] }

/-- The pipeline's pool after `Collect` pushed the session back. -/
def pushedPool (p : Pool) : Pool :=
  Pool.push p.next { p with inUse := insert p.next p.inUse, next := p.next + 1 }

/-- The state after `Collect`: session pushed back, reference cleared. -/
def pplAfterCollect (p : Pool) (c1 : String) : Pipeline :=
  { pool := pushedPool p, resp := none, counter := 1,
    sent := [(p.next, "auth"), (p.next, "select"), (p.next, lowerStr c1)] }

/-- The state after the next `Do`: a brand-new session `p.next + 1`
force-pulled, only the command itself sent on it. -/
def pplAfterDo2 (p : Pool) (c1 c2 : String) : Pipeline :=
  { pool := { pushedPool p with inUse := insert (p.next + 1) (pushedPool p).inUse,
                                next := p.next + 1 + 1 },
    resp := some (p.next + 1), counter := 1,
    sent := [(p.next, "auth"), (p.next, "select"), (p.next, lowerStr c1),
             (p.next + 1, lowerStr c2)] }

/-- C10: with a password configured, `newPipeline` performs the
authenticate/select handshake exactly once, on the session acquired at
creation; submitting a command sends it on that session; `Collect`
returns the decoded reply, pushes the session back and clears the
reference; and the next `Do` force-pulls a brand-new session (distinct
from the first) on which only that command is sent — no authentication
or database selection. -/
theorem pipeline_handshake_once (p : Pool) (pw c1 c2 : String) (w : List Nat) (r : RSet)
    (hact : p.active = true) (hpw : pw ≠ "")
    (hc1 : hasSubscribe (lowerStr c1) = false) (hc2 : hasSubscribe (lowerStr c2) = false)
    (hw : ∀ t, receiveResultSet (w ++ t) = .ok (r, t)) :
    newPipeline true pw true true p = (.ok (pplAfterNew p), (pplAfterNew p).pool) ∧
    Pipeline.Do true true c1 (pplAfterNew p) = (.ok (), pplAfterDo1 p c1) ∧
    Pipeline.Collect true w (pplAfterDo1 p c1) = (.ok ([r], []), pplAfterCollect p c1) ∧
    Pipeline.Do true true c2 (pplAfterCollect p c1) = (.ok (), pplAfterDo2 p c1 c2) ∧
    (pplAfterDo2 p c1 c2).resp = some (p.next + 1) ∧ p.next + 1 ≠ p.next ∧
    (∀ e ∈ (pplAfterDo2 p c1 c2).sent, e.1 = p.next + 1 → e.2 = lowerStr c2) := by
  have hw0 : receiveResultSet w = .ok (r, []) := by
    have := hw []
    rwa [List.append_nil] at this
  refine ⟨?_, ?_, ?_, ?_, rfl, by omega, ?_⟩
  · simp [newPipeline, Pipeline.ensureProtocol, Pool.pullForced, hact, hpw, pplAfterNew]
  · simp [Pipeline.Do, Pipeline.ensureProtocol, hc1, pplAfterNew, pplAfterDo1]
  · simp [Pipeline.Collect, Pipeline.ensureProtocol, collectN, hw0, pplAfterDo1,
      pplAfterCollect, pushedPool]
  · have hactive : (pushedPool p).active = true := by
      rw [pushedPool, push_active]
      exact hact
    have hnext : (pushedPool p).next = p.next + 1 := by
      rw [pushedPool, push_next]
    simp [Pipeline.Do, Pipeline.ensureProtocol, Pool.pullForced, hc2, hactive, hnext,
      pplAfterCollect, pplAfterDo2]
  · intro e he h1
    simp only [pplAfterDo2] at he
    have he' : e ∈ [(p.next, "auth"), (p.next, "select"), (p.next, lowerStr c1),
        (p.next + 1, lowerStr c2)] := he
    rcases List.mem_cons.mp he' with h | h
    · rw [h] at h1
      omega
    · rcases List.mem_cons.mp h with h | h
      · rw [h] at h1
        omega
      · rcases List.mem_cons.mp h with h | h
        · rw [h] at h1
          omega
        · rcases List.mem_cons.mp h with h | h
          · rw [h]
          · exact absurd h (List.not_mem_nil e)

/-- C10 witness: the handshake-once theorem applied to a fresh pool of
capacity one with password `secret`, commands `ping` then `echo`, and
a `+PONG` reply stream. -/
theorem pipeline_handshake_once_witness :
    newPipeline true "secret" true true (newPool 1) =
      (.ok (pplAfterNew (newPool 1)), (pplAfterNew (newPool 1)).pool) :=
  (pipeline_handshake_once (newPool 1) "secret" "ping" "echo"
      [43, 80, 79, 78, 71, 13, 10] (0, [RItem.value [43, 80, 79, 78, 71]])
      rfl (by decide) (by decide) (by decide) (fun t => pong_decodes t)).1

end Redis
